import Mathlib

/-!
Verification of the acceptance-state logic of the `termsandconditions` Django
module, as implemented in `termsandconditions/views.py`.

The embedding models:
- the data rows (`TermsVersion` rows of `TermsAndConditions`,
  `AcceptanceRecord` rows of `UserTermsAndConditions`),
- the process-wide cache as an association list,
- `GetTermsViewMixin.get_terms` / `get_return_to` / Django's `iri_to_uri`,
- `AcceptTermsView.post` (the batch acceptance loop with its
  `except IntegrityError: pass` handler),
- `EmailTermsView.form_valid` (the SMTP failure path).

Collaborators that live outside the repository (Django's
`url_has_allowed_host_and_scheme`, the SMTP transport) are taken as
parameters.  Functions of this repository's `models.py`, which is not among
the sources (only `views.py` is), are modelled from the spec and marked so in
their doc comments.  Exceptions are modelled explicitly: Python `raise`
becomes an error value that the embedding propagates exactly where the code's
`try`/`except` structure does.
-/

/-- A row of the `TermsAndConditions` table (spec name: `TermsVersion`):
id (primary key), slug, version number, nullable activation timestamp. -/
structure TermsVersion where
  id : Nat
  slug : String
  version_number : String
  date_active : Option Int
deriving DecidableEq, Repr

/-- A row of the `UserTermsAndConditions` table (spec name:
`AcceptanceRecord`): user (by username), accepted terms version (by id),
audit ip address. -/
structure AcceptanceRecord where
  user : String
  terms : Nat
  ip_address : String
deriving DecidableEq, Repr

/-- The database of record: all terms rows and all acceptance rows. -/
structure DB where
  terms : List TermsVersion
  userterms : List AcceptanceRecord
deriving DecidableEq, Repr

/-- The process-wide cache, keyed by strings, holding not-agreed term lists. -/
def CacheT : Type := List (String × List TermsVersion)

instance : DecidableEq CacheT := by
  unfold CacheT
  infer_instance

/-- `cache.set key value` (TTL not modelled: no claim observes expiry). -/
def cacheSet (c : CacheT) (k : String) (v : List TermsVersion) : CacheT :=
  (k, v) :: (c.filter (fun p => !(p.1 == k)))

/-- `cache.get key`. -/
def cacheGet (c : CacheT) (k : String) : Option (List TermsVersion) :=
  (c.find? (fun p => p.1 == k)).map (fun p => p.2)

/-- Python exceptions that the modelled code can raise. -/
inductive PyError where
  | doesNotExist
  | integrityError
  | typeError
deriving DecidableEq, Repr

deriving instance DecidableEq for Except

/-- Ordering on nullable `date_active` values used by `.latest("date_active")`:
a null activation date sorts below every concrete one. -/
def dateLE : Option Int → Option Int → Bool
  | none, _ => true
  | some _, none => false
  | some a, some b => decide (a ≤ b)

/-- Django's `qs.latest("date_active")` on a list of rows: a row with the
maximal `date_active`, or nothing when the queryset is empty (in which case
the ORM raises `DoesNotExist`). -/
def latestByDateActive : List TermsVersion → Option TermsVersion
  | [] => none
  | t :: rest =>
    match latestByDateActive rest with
    | none => some t
    | some b => if dateLE b.date_active t.date_active then some t else some b

/-- Whether the user identified by `u` has an acceptance row for terms id
`tid` in `db`. -/
def acceptedB (db : DB) (u : String) (tid : Nat) : Bool :=
  db.userterms.any (fun r => r.user == u && r.terms == tid)

/-- Modelled from the spec: activity of a terms row.  The predicate lives in
`models.py`, which is not among the sources; per the spec a version is active
when its `date_active` is non-null, not in the future, and maximal among the
non-future activation dates of its slug. -/
def isActiveB (db : DB) (now : Int) (t : TermsVersion) : Bool :=
  match t.date_active with
  | none => false
  | some d =>
    decide (d ≤ now) &&
    db.terms.all (fun u =>
      !(u.slug == t.slug) ||
      match u.date_active with
      | none => true
      | some e => !(decide (e ≤ now)) || decide (e ≤ d))

/-- Modelled from the spec: `TermsAndConditions.get_active_terms_list()` lives
in `models.py`, which is not among the sources; per the spec
(`getActiveAll`) it returns the active version of each slug. -/
def get_active_terms_list (db : DB) (now : Int) : List TermsVersion :=
  db.terms.filter (fun t => isActiveB db now t)

/-- The queryset built inside `AcceptTermsView.post` after a save:
`get_active_terms_list().exclude(userterms__in=UserTermsAndConditions.objects
.filter(user=user)).order_by("slug")`. -/
def notAgreedList (db : DB) (now : Int) (u : String) : List TermsVersion :=
  List.insertionSort (fun a b => a.slug ≤ b.slug)
    ((get_active_terms_list db now).filter
      (fun t => !(db.userterms.any (fun r => r.user == u && r.terms == t.id))))

/-- `UserTermsAndConditions(user=..., terms=..., ip_address=...).save()`.
Modelled from the spec where it concerns the constraint: the uniqueness of
`(user, terms)` is declared in `models.py`, which is not among the sources;
per the spec a duplicate insert raises `IntegrityError`. -/
def saveUserTerms (db : DB) (u : String) (tid : Nat) (ip : String) :
    Except PyError DB :=
  if acceptedB db u tid then .error .integrityError
  else .ok { db with userterms := db.userterms ++ [⟨u, tid, ip⟩] }

/-- Mutable state touched by `AcceptTermsView.post`: database plus cache. -/
structure PostState where
  db : DB
  cache : CacheT
deriving DecidableEq

/-- One iteration of the `for terms_id in terms_ids` loop body of
`AcceptTermsView.post`: resolve the row by primary key
(`TermsAndConditions.objects.get(pk=...)` raises `DoesNotExist` on a miss,
which the `except IntegrityError` handler does not catch), save the new
acceptance, recompute the not-agreed queryset and write it to the cache;
`except IntegrityError: pass` absorbs only the duplicate-insert error. -/
def acceptOne (now : Int) (u ip : String) (st : PostState) (tid : Nat) :
    Except PyError PostState :=
  match st.db.terms.find? (fun t => t.id == tid) with
  | none => .error .doesNotExist
  | some t =>
    match saveUserTerms st.db u t.id ip with
    | .error .integrityError => .ok st
    | .error e => .error e
    | .ok db' =>
      .ok { db := db',
            cache := cacheSet st.cache ("tandc.not_agreed_terms_" ++ u)
              (notAgreedList db' now u) }

/-- The batch loop of `AcceptTermsView.post`: runs `acceptOne` on each id in
order; an uncaught exception aborts the loop, carrying the state reached so
far. -/
def postLoop (now : Int) (u ip : String) :
    PostState → List Nat → PostState × Option PyError
  | st, [] => (st, none)
  | st, tid :: rest =>
    match acceptOne now u ip st tid with
    | .error e => (st, some e)
    | .ok st' => postLoop now u ip st' rest

/-- The characters Django's `iri_to_uri` passes through unescaped beyond the
`quote` defaults: `quote(iri, safe="/#%[]=:;$&()+,!?*@'~")`. -/
def uriSafeChars : List Char :=
  ['/', '#', '%', '[', ']', '=', ':', ';', '$', '&', '(', ')', '+', ',',
   '!', '?', '*', Char.ofNat 64, Char.ofNat 39, '~']

/-- Whether `quote` leaves an ASCII character unescaped: alphanumerics,
`_.-~`, and the safe set above. -/
def isUriKeep (c : Char) : Bool :=
  (65 ≤ c.toNat && c.toNat ≤ 90) || (97 ≤ c.toNat && c.toNat ≤ 122) ||
  (48 ≤ c.toNat && c.toNat ≤ 57) ||
  c == '_' || c == '.' || c == '-' || c == '~' || uriSafeChars.contains c

/-- The UTF-8 bytes of the code point `n`. -/
def utf8Bytes (n : Nat) : List Nat :=
  if n < 128 then [n]
  else if n < 2048 then [192 + n / 64, 128 + n % 64]
  else if n < 65536 then [224 + n / 4096, 128 + n / 64 % 64, 128 + n % 64]
  else [240 + n / 262144, 128 + n / 4096 % 64, 128 + n / 64 % 64,
        128 + n % 64]

/-- An uppercase hexadecimal digit. -/
def pctHexDigit (n : Nat) : Char :=
  if n < 10 then Char.ofNat (48 + n) else Char.ofNat (55 + n)

/-- The percent-escape of one byte. -/
def pctByte (b : Nat) : List Char :=
  ['%', pctHexDigit (b / 16 % 16), pctHexDigit (b % 16)]

/-- Django's `iri_to_uri`: percent-encode every UTF-8 byte outside the kept
set. -/
def iri_to_uri (s : String) : String :=
  String.mk (s.data.foldr
    (fun c acc =>
      (if isUriKeep c then [c] else (utf8Bytes c.toNat).foldr
        (fun b acc2 => pctByte b ++ acc2) []) ++ acc)
    [])

/-- `GetTermsViewMixin.get_return_to`: read `returnTo` from the dict
(default `"/"`), return its IRI encoding when the safety check passes, else
`"/"`.  The safety check (`is_safe_url`, delegating to Django's
`url_has_allowed_host_and_scheme`) is outside the repository and taken as the
parameter `safe`.  The dict is modelled by its `returnTo` entry. -/
def get_return_to (safe : String → Bool) (fromDict : Option String) : String :=
  let return_to := fromDict.getD "/"
  if safe return_to then iri_to_uri return_to else "/"

/-- Python truthiness of an optional URL kwarg: present and non-empty. -/
def truthy : Option String → Bool
  | none => false
  | some s => !(s == "")

/-- `GetTermsViewMixin.get_terms`: with both slug and version truthy, an
exact `(slug, version_number)` filter resolved by `.latest("date_active")`
(raising `DoesNotExist` on an empty queryset); with only a slug,
`TermsAndConditions.get_active(slug)`; otherwise the current user's
not-agreed list.  The last two live in `models.py`, outside the sources, and
are taken as the parameters `getActive` and `notAgreedOfUser`. -/
def get_terms (getActive : String → Except PyError TermsVersion)
    (notAgreedOfUser : List TermsVersion) (db : DB)
    (slug version : Option String) : Except PyError (List TermsVersion) :=
  if truthy slug && truthy version then
    match latestByDateActive
        (db.terms.filter (fun t =>
          t.slug == slug.getD "" && t.version_number == version.getD "")) with
    | none => .error .doesNotExist
    | some t => .ok [t]
  else if truthy slug then
    (getActive (slug.getD "")).map (fun t => [t])
  else
    .ok notAgreedOfUser

/-- Django settings read by `AcceptTermsView.post`; `none` means the setting
is unset, so the `getattr` default applies. -/
structure Settings where
  storeIpAddress : Option Bool
deriving DecidableEq, Repr

/-- The request data `AcceptTermsView.post` reads: the POST `returnTo`
value, the POST `terms` id list, the authenticated user (username) if any,
the django-socialauth partial-pipeline user if any, and the value of the
configured IP header in `request.META` (`none` = header absent). -/
structure Request where
  returnTo : Option String
  termsIds : List Nat
  authUser : Option String
  pipelineUser : Option String
  ipHeader : Option String

/-- The whitespace characters Python's `str.strip()` removes (the ASCII
ones). -/
def pyIsSpace (c : Char) : Bool :=
  c == ' ' || c == '\t' || c == '\n' || c == '\r' ||
  c == Char.ofNat 11 || c == Char.ofNat 12

/-- Python `s.split(",")[0]`: the prefix of `s` before its first comma. -/
def splitFirstComma (s : String) : String :=
  String.mk (s.data.takeWhile (fun c => !(c == ',')))

/-- Python `s.strip()`: leading and trailing whitespace removed. -/
def pyStrip (s : String) : String :=
  String.mk (((s.data.dropWhile pyIsSpace).reverse.dropWhile pyIsSpace).reverse)

/-- The ip-address block of `AcceptTermsView.post`: with storage enabled
(setting unset or True) the header value is read from `request.META`; a
missing header yields Python `None`, so the `"," in ip_address` membership
test raises `TypeError`; a value containing a comma is split at commas and
the first entry stripped.  With storage disabled the recorded address is
`""`. -/
def ipExtract (settings : Settings) (hdr : Option String) :
    Except PyError String :=
  if settings.storeIpAddress.getD true then
    match hdr with
    | none => .error .typeError
    | some s =>
      .ok (if s.data.contains ',' then pyStrip (splitFirstComma s) else s)
  else .ok ""

/-- Outcome of a `post` call: an HTTP redirect, or an uncaught exception;
both carry the database/cache state at that point. -/
inductive PostOutcome where
  | redirect (url : String) (st : PostState)
  | raised (e : PyError) (st : PostState)
deriving DecidableEq

/-- The part of `AcceptTermsView.post` after the user has been resolved:
extract the ip address (possibly raising `TypeError`), run the batch loop
(possibly letting `DoesNotExist` escape), redirect to the return URL. -/
def AcceptTermsView.postBody (settings : Settings) (now : Int)
    (req : Request) (st : PostState) (return_url u : String) : PostOutcome :=
  match ipExtract settings req.ipHeader with
  | .error e => .raised e st
  | .ok ip =>
    match postLoop now u ip st req.termsIds with
    | (st', none) => .redirect return_url st'
    | (st', some e) => .raised e st'

/-- `AcceptTermsView.post`: compute the validated return URL; redirect at
once on an empty id list; resolve the user (authenticated, else socialauth
pipeline, else redirect to `/`); then run the ip-extraction and batch
loop. -/
def AcceptTermsView.post (settings : Settings) (safe : String → Bool)
    (now : Int) (req : Request) (st : PostState) : PostOutcome :=
  let return_url := get_return_to safe req.returnTo
  if req.termsIds.isEmpty then .redirect return_url st
  else
    match req.authUser with
    | some u => AcceptTermsView.postBody settings now req st return_url u
    | none =>
      match req.pipelineUser with
      | some u => AcceptTermsView.postBody settings now req st return_url u
      | none => .redirect "/" st

/-- Message severity levels used by `django.contrib.messages`. -/
inductive MsgLevel where
  | info
  | error
deriving DecidableEq, Repr

/-- Mutable state observable from `EmailTermsView.form_valid`: the
acceptance database, the not-agreed cache, and the request's message list. -/
structure EmailState where
  db : DB
  cache : CacheT
  messages : List (MsgLevel × String)
deriving DecidableEq

/-- Whether the external `send_mail` call succeeded or raised
`SMTPException`; the SMTP transport is outside the repository. -/
inductive SendOutcome where
  | sent
  | smtpException
deriving DecidableEq, Repr

/-- `EmailTermsView.form_valid`: send the rendered terms; on success add an
info message, on `SMTPException` add an error message; either way set
`success_url` from the cleaned form data and complete with a redirect to
it. -/
def EmailTermsView.form_valid (safe : String → Bool) (send : SendOutcome)
    (returnTo : Option String) (st : EmailState) : EmailState × String :=
  let st' :=
    match send with
    | .sent =>
      { st with messages :=
          st.messages ++ [(MsgLevel.info, "Terms and Conditions Sent.")] }
    | .smtpException =>
      { st with messages :=
          st.messages ++
            [(MsgLevel.error, "An Error Occurred Sending Your Message.")] }
  (st', get_return_to safe returnTo)

/-- A one-row catalog used by concrete instances: terms id 1, slug
`site-terms`, active since time 5. -/
def wTerms : TermsVersion := ⟨1, "site-terms", "1", some 5⟩

/-- Concrete starting state: the one-row catalog, no acceptances, empty
cache. -/
def wStart : PostState := ⟨⟨[wTerms], []⟩, []⟩

/-- Concrete state after user `u` accepts terms id 1 with the given
ip address: one acceptance row and a cache entry holding the (now empty)
not-agreed list. -/
def wAfter (ip : String) : PostState :=
  ⟨⟨[wTerms], [⟨"u", 1, ip⟩]⟩, [("tandc.not_agreed_terms_u", [])]⟩

/-! ## Helper lemmas -/

theorem cacheGet_cacheSet (c : CacheT) (k : String) (v : List TermsVersion) :
    cacheGet (cacheSet c k v) k = some v := by
  simp [cacheGet, cacheSet, List.find?]

theorem dateLE_of_not (a b : Option Int) (h : dateLE a b = false) :
    dateLE b a = true := by
  cases a <;> cases b <;> simp_all [dateLE]
  omega

theorem dateLE_trans (a b c : Option Int) (h1 : dateLE a b = true)
    (h2 : dateLE b c = true) : dateLE a c = true := by
  cases a <;> cases b <;> cases c <;> simp_all [dateLE]
  omega

theorem latest_eq_none_iff (l : List TermsVersion) :
    latestByDateActive l = none ↔ l = [] := by
  cases l with
  | nil => simp [latestByDateActive]
  | cons t rest =>
    simp only [latestByDateActive]
    cases latestByDateActive rest with
    | none => simp
    | some b =>
      constructor
      · intro h
        by_cases hle : dateLE b.date_active t.date_active <;> simp [hle] at h
      · intro h
        exact absurd h (List.cons_ne_nil t rest)

theorem latest_mem (l : List TermsVersion) (t : TermsVersion)
    (h : latestByDateActive l = some t) : t ∈ l := by
  induction l generalizing t with
  | nil => simp [latestByDateActive] at h
  | cons a rest ih =>
    simp only [latestByDateActive] at h
    cases hrest : latestByDateActive rest with
    | none =>
      rw [hrest] at h
      simp at h
      simp [h]
    | some b =>
      rw [hrest] at h
      by_cases hle : dateLE b.date_active a.date_active <;> simp [hle] at h
      · simp [h]
      · exact List.mem_cons_of_mem a (h ▸ ih b hrest)

theorem latest_max (l : List TermsVersion) (t : TermsVersion)
    (h : latestByDateActive l = some t) :
    ∀ r ∈ l, dateLE r.date_active t.date_active = true := by
  induction l generalizing t with
  | nil => simp [latestByDateActive] at h
  | cons a rest ih =>
    simp only [latestByDateActive] at h
    cases hrest : latestByDateActive rest with
    | none =>
      rw [hrest] at h
      simp at h
      rw [latest_eq_none_iff] at hrest
      subst hrest
      intro r hr
      simp at hr
      subst hr
      subst h
      cases hr2 : r.date_active <;> simp [dateLE]
    | some b =>
      rw [hrest] at h
      intro r hr
      rcases List.mem_cons.mp hr with hra | hrr
      · subst hra
        by_cases hle : dateLE b.date_active r.date_active = true
        · simp [hle] at h
          subst h
          cases hv : r.date_active <;> simp [dateLE]
        · simp [hle] at h
          subst h
          exact dateLE_of_not _ _ (Bool.eq_false_iff.mpr hle)
      · by_cases hle : dateLE b.date_active a.date_active = true
        · simp [hle] at h
          subst h
          exact dateLE_trans _ _ _ (ih b hrest r hrr) hle
        · simp [hle] at h
          subst h
          exact ih b hrest r hrr

theorem acceptOne_ok_cases (now : Int) (u ip : String) (st st' : PostState)
    (tid : Nat) (h : acceptOne now u ip st tid = .ok st') :
    (st' = st ∧ ∃ t, st.db.terms.find? (fun t0 => t0.id == tid) = some t ∧
        acceptedB st.db u t.id = true) ∨
    (∃ t, st.db.terms.find? (fun t0 => t0.id == tid) = some t ∧
        acceptedB st.db u t.id = false ∧
        st'.db.terms = st.db.terms ∧
        st'.db.userterms = st.db.userterms ++ [⟨u, t.id, ip⟩] ∧
        st'.cache = cacheSet st.cache ("tandc.not_agreed_terms_" ++ u)
          (notAgreedList st'.db now u)) := by
  unfold acceptOne at h
  cases hfind : st.db.terms.find? (fun t0 => t0.id == tid) with
  | none => rw [hfind] at h; exact absurd h (by simp)
  | some t =>
    rw [hfind] at h
    unfold saveUserTerms at h
    by_cases hacc : acceptedB st.db u t.id = true
    · simp [hacc] at h
      exact Or.inl ⟨h.symm, t, rfl, hacc⟩
    · simp [hacc] at h
      subst h
      exact Or.inr ⟨t, rfl, Bool.eq_false_iff.mpr hacc, rfl, rfl, rfl⟩

theorem acceptOne_terms_eq (now : Int) (u ip : String) (st st' : PostState)
    (tid : Nat) (h : acceptOne now u ip st tid = .ok st') :
    st'.db.terms = st.db.terms := by
  rcases acceptOne_ok_cases now u ip st st' tid h with ⟨heq, _⟩ | ⟨t, _, _, hterms, _⟩
  · rw [heq]
  · exact hterms

theorem acceptOne_ok_of_found (now : Int) (u ip : String) (st : PostState)
    (tid : Nat) (t : TermsVersion)
    (hfind : st.db.terms.find? (fun t0 => t0.id == tid) = some t) :
    ∃ st', acceptOne now u ip st tid = .ok st' := by
  cases hres : acceptOne now u ip st tid with
  | ok st' => exact ⟨st', rfl⟩
  | error e =>
    unfold acceptOne at hres
    rw [hfind] at hres
    unfold saveUserTerms at hres
    by_cases hacc : acceptedB st.db u t.id = true
    · simp [hacc] at hres
    · simp [hacc] at hres

theorem postLoop_terms_eq (now : Int) (u ip : String) :
    ∀ (ids : List Nat) (st : PostState),
      (postLoop now u ip st ids).1.db.terms = st.db.terms
  | [], _ => rfl
  | tid :: rest, st => by
    cases hone : acceptOne now u ip st tid with
    | error e => simp [postLoop, hone]
    | ok st' =>
      rw [postLoop, hone]
      rw [postLoop_terms_eq now u ip rest st']
      exact acceptOne_terms_eq now u ip st st' tid hone

theorem postLoop_extends (now : Int) (u ip : String) :
    ∀ (ids : List Nat) (st : PostState),
      ∃ l, (postLoop now u ip st ids).1.db.userterms = st.db.userterms ++ l ∧
        ∀ r ∈ l, r.user = u ∧ r.ip_address = ip
  | [], st => ⟨[], by simp [postLoop]⟩
  | tid :: rest, st => by
    cases hone : acceptOne now u ip st tid with
    | error e => exact ⟨[], by simp [postLoop, hone]⟩
    | ok st' =>
      rw [postLoop, hone]
      obtain ⟨l1, hl1, hall1⟩ := postLoop_extends now u ip rest st'
      rcases acceptOne_ok_cases now u ip st st' tid hone with
        ⟨heq, _⟩ | ⟨t, _, _, _, hut, _⟩
      · exact ⟨l1, by rw [hl1, heq], hall1⟩
      · refine ⟨⟨u, t.id, ip⟩ :: l1, ?_, ?_⟩
        · rw [hl1, hut]
          simp
        · intro r hr
          rcases List.mem_cons.mp hr with hr1 | hr2
          · subst hr1; exact ⟨rfl, rfl⟩
          · exact hall1 r hr2

theorem postLoop_cache_inv (now : Int) (u ip : String) :
    ∀ (ids : List Nat) (st : PostState),
      (postLoop now u ip st ids).2 = none →
      (postLoop now u ip st ids).1 = st ∨
      cacheGet (postLoop now u ip st ids).1.cache
          ("tandc.not_agreed_terms_" ++ u) =
        some (notAgreedList (postLoop now u ip st ids).1.db now u)
  | [], st, _ => Or.inl rfl
  | tid :: rest, st, hok => by
    cases hone : acceptOne now u ip st tid with
    | error e =>
      rw [postLoop, hone] at hok
      simp at hok
    | ok st1 =>
      rw [postLoop, hone] at hok ⊢
      rcases acceptOne_ok_cases now u ip st st1 tid hone with
        ⟨heq, _⟩ | ⟨t, _, _, _, _, hcache⟩
      · rw [heq] at hok ⊢
        exact postLoop_cache_inv now u ip rest st hok
      · have hinv1 : cacheGet st1.cache ("tandc.not_agreed_terms_" ++ u) =
            some (notAgreedList st1.db now u) := by
          rw [hcache]
          exact cacheGet_cacheSet _ _ _
        rcases postLoop_cache_inv now u ip rest st1 hok with heq2 | hinv2
        · rw [heq2]
          exact Or.inr hinv1
        · exact Or.inr hinv2

theorem postLoop_fresh_cache (now : Int) (u ip : String) :
    ∀ (ids : List Nat) (st : PostState),
      (postLoop now u ip st ids).2 = none →
      (∃ tid ∈ ids, st.db.terms.any (fun t => t.id == tid) = true ∧
        acceptedB st.db u tid = false) →
      cacheGet (postLoop now u ip st ids).1.cache
          ("tandc.not_agreed_terms_" ++ u) =
        some (notAgreedList (postLoop now u ip st ids).1.db now u)
  | [], _, _, hfresh => by simp at hfresh
  | tid0 :: rest, st, hok, hfresh => by
    cases hone : acceptOne now u ip st tid0 with
    | error e =>
      rw [postLoop, hone] at hok
      simp at hok
    | ok st1 =>
      rw [postLoop, hone] at hok ⊢
      rcases acceptOne_ok_cases now u ip st st1 tid0 hone with
        ⟨heq, t, hfind, hacc⟩ | ⟨t, hfind, hacc, hterms, hut, hcache⟩
      · -- duplicate: state unchanged; the fresh witness cannot be tid0
        subst heq
        obtain ⟨w, hw, hwex, hwfresh⟩ := hfresh
        rcases List.mem_cons.mp hw with hw0 | hwr
        · exfalso
          have htid : t.id = tid0 := by
            have := List.find?_some hfind
            simpa using this
          rw [hw0] at hwfresh
          rw [htid] at hacc
          rw [hacc] at hwfresh
          exact Bool.true_eq_false.mp hwfresh
        · exact postLoop_fresh_cache now u ip rest st1 hok ⟨w, hwr, hwex, hwfresh⟩
      · -- fresh insert: the invariant holds at st1 and is preserved
        have hinv1 : cacheGet st1.cache ("tandc.not_agreed_terms_" ++ u) =
            some (notAgreedList st1.db now u) := by
          rw [hcache]
          exact cacheGet_cacheSet _ _ _
        rcases postLoop_cache_inv now u ip rest st1 hok with heq2 | hinv2
        · rw [heq2]
          exact hinv1
        · exact hinv2

theorem postBody_redirect_cases (settings : Settings) (now : Int)
    (req : Request) (st : PostState) (return_url u url : String)
    (st' : PostState)
    (hres : AcceptTermsView.postBody settings now req st return_url u =
      .redirect url st') :
    ∃ ip, ipExtract settings req.ipHeader = .ok ip ∧
      postLoop now u ip st req.termsIds = (st', none) ∧ return_url = url := by
  unfold AcceptTermsView.postBody at hres
  split at hres
  next e heq => simp at hres
  next ip heq =>
    split at hres
    next st2 heq2 =>
      simp at hres
      exact ⟨ip, heq, by rw [heq2, hres.2], hres.1⟩
    next st2 e heq2 => simp at hres

theorem post_redirect_cases (settings : Settings) (safe : String → Bool)
    (now : Int) (req : Request) (st : PostState) (url : String)
    (st' : PostState)
    (hres : AcceptTermsView.post settings safe now req st = .redirect url st') :
    (st' = st ∧ (req.termsIds = [] ∨ req.authUser = none)) ∨
    ∃ u ip, (req.authUser = some u ∨
        (req.authUser = none ∧ req.pipelineUser = some u)) ∧
      ipExtract settings req.ipHeader = .ok ip ∧
      postLoop now u ip st req.termsIds = (st', none) := by
  unfold AcceptTermsView.post at hres
  by_cases hemp : req.termsIds.isEmpty
  · rw [if_pos hemp] at hres
    simp at hres
    exact Or.inl ⟨hres.2.symm, Or.inl (List.isEmpty_iff.mp hemp)⟩
  · rw [if_neg hemp] at hres
    cases hauth : req.authUser with
    | some u =>
      rw [hauth] at hres
      obtain ⟨ip, h1, h2, _⟩ := postBody_redirect_cases settings now req st _ u url st' hres
      exact Or.inr ⟨u, ip, Or.inl rfl, h1, h2⟩
    | none =>
      rw [hauth] at hres
      cases hpipe : req.pipelineUser with
      | some u =>
        rw [hpipe] at hres
        obtain ⟨ip, h1, h2, _⟩ := postBody_redirect_cases settings now req st _ u url st' hres
        exact Or.inr ⟨u, ip, Or.inr ⟨rfl, rfl⟩, h1, h2⟩
      | none =>
        rw [hpipe] at hres
        simp at hres
        exact Or.inl ⟨hres.2.symm, Or.inr rfl⟩

/-! ## Claims -/

/-- C1 (counterexample): with a catalog holding only terms id 1, the batch
`[2, 1]` submitted by an authenticated user raises `DoesNotExist` at the
unresolvable id 2 and aborts the batch: the exception propagates out of the
loop, and the remaining valid id 1 is never processed (no acceptance row is
created, the state is unchanged). -/
theorem notfound_aborts_batch_cex :
    AcceptTermsView.post ⟨none⟩ (fun _ => true) 20
      ⟨none, [2, 1], some "u", none, some "1.2.3.4"⟩
      ⟨⟨[⟨1, "site-terms", "1", some 5⟩], []⟩, []⟩ =
    .raised .doesNotExist ⟨⟨[⟨1, "site-terms", "1", some 5⟩], []⟩, []⟩ := by
  decide

/-- C1 (amended): when the batch loop of `AcceptTermsView.post` reaches an id
that does not resolve to a `TermsAndConditions` row, the `DoesNotExist`
exception propagates out of the loop (only `IntegrityError` is absorbed):
the bad id is not skipped and the ids after it are not processed. -/
theorem notfound_propagates_out_of_loop (now : Int) (u ip : String)
    (st : PostState) (pre rest : List Nat) (tid : Nat)
    (hpre : ∀ i ∈ pre, st.db.terms.any (fun t => t.id == i) = true)
    (hbad : st.db.terms.all (fun t => !(t.id == tid)) = true) :
    (postLoop now u ip st (pre ++ tid :: rest)).2 = some .doesNotExist := by
  induction pre generalizing st with
  | nil =>
    have hfind : st.db.terms.find? (fun t => t.id == tid) = none := by
      rw [List.find?_eq_none]
      intro a ha
      have := List.all_eq_true.mp hbad a ha
      simpa using this
    simp [postLoop, acceptOne, hfind]
  | cons i pre ih =>
    have hi := hpre i (List.mem_cons_self i pre)
    obtain ⟨t, ht, hp⟩ := List.any_eq_true.mp hi
    have hfind : ∃ t', st.db.terms.find? (fun t0 => t0.id == i) = some t' := by
      have : (st.db.terms.find? (fun t0 => t0.id == i)).isSome := by
        rw [List.find?_isSome]
        exact ⟨t, ht, hp⟩
      exact Option.isSome_iff_exists.mp this
    obtain ⟨t', hfind⟩ := hfind
    obtain ⟨st1, hone⟩ := acceptOne_ok_of_found now u ip st i t' hfind
    have hterms : st1.db.terms = st.db.terms :=
      acceptOne_terms_eq now u ip st st1 i hone
    rw [List.cons_append, postLoop, hone]
    apply ih
    · intro j hj
      rw [hterms]
      exact hpre j (List.mem_cons_of_mem i hj)
    · rw [hterms]
      exact hbad

/-- C1 (witness for the amended claim): in a catalog holding only terms
id 1, the batch `[1, 2]` runs the valid id 1 and then aborts with
`DoesNotExist` at id 2. -/
theorem notfound_propagates_out_of_loop_witness :
    (postLoop 20 "u" "1.2.3.4"
      ⟨⟨[⟨1, "site-terms", "1", some 5⟩], []⟩, []⟩ ([1] ++ 2 :: [])).2 =
      some .doesNotExist :=
  notfound_propagates_out_of_loop 20 "u" "1.2.3.4"
    ⟨⟨[⟨1, "site-terms", "1", some 5⟩], []⟩, []⟩ [1] [] 2
    (by decide) (by decide)

/-- C3: a duplicate id in the batch — the user already has an acceptance row
for it — is a no-op: the `IntegrityError` raised by the save is absorbed by
the `except IntegrityError: pass` handler, the iteration returns the state
unchanged, and the loop continues with the remaining ids exactly as if the
duplicate had not been there. -/
theorem duplicate_acceptance_is_noop (now : Int) (u ip : String)
    (st : PostState) (tid : Nat) (rest : List Nat)
    (hex : st.db.terms.any (fun t => t.id == tid) = true)
    (hdup : acceptedB st.db u tid = true) :
    acceptOne now u ip st tid = .ok st ∧
    postLoop now u ip st (tid :: rest) = postLoop now u ip st rest := by
  obtain ⟨t, ht, hp⟩ := List.any_eq_true.mp hex
  have hfind : ∃ t', st.db.terms.find? (fun t0 => t0.id == tid) = some t' := by
    have : (st.db.terms.find? (fun t0 => t0.id == tid)).isSome := by
      rw [List.find?_isSome]
      exact ⟨t, ht, hp⟩
    exact Option.isSome_iff_exists.mp this
  obtain ⟨t', hfind⟩ := hfind
  have htid : t'.id = tid := by
    have := List.find?_some hfind
    simpa using this
  have h1 : acceptOne now u ip st tid = .ok st := by
    unfold acceptOne
    rw [hfind]
    have hdup' : acceptedB st.db u t'.id = true := by rw [htid]; exact hdup
    unfold saveUserTerms
    simp [hdup']
  exact ⟨h1, by rw [postLoop, h1]⟩

/-- C3 (witness): user `"u"` has already accepted terms id 1; resubmitting
id 1 leaves the state unchanged and the loop equal to the loop on the rest
of the batch. -/
theorem duplicate_acceptance_is_noop_witness :
    acceptOne 20 "u" "ip"
      ⟨⟨[⟨1, "site-terms", "1", some 5⟩], [⟨"u", 1, "ip"⟩]⟩, []⟩ 1 =
      .ok ⟨⟨[⟨1, "site-terms", "1", some 5⟩], [⟨"u", 1, "ip"⟩]⟩, []⟩ ∧
    postLoop 20 "u" "ip"
      ⟨⟨[⟨1, "site-terms", "1", some 5⟩], [⟨"u", 1, "ip"⟩]⟩, []⟩ (1 :: []) =
    postLoop 20 "u" "ip"
      ⟨⟨[⟨1, "site-terms", "1", some 5⟩], [⟨"u", 1, "ip"⟩]⟩, []⟩ [] :=
  duplicate_acceptance_is_noop 20 "u" "ip"
    ⟨⟨[⟨1, "site-terms", "1", some 5⟩], [⟨"u", 1, "ip"⟩]⟩, []⟩ 1 []
    (by decide) (by decide)

/-- C9: a POST whose `terms` id list is empty redirects immediately to the
validated return URL and changes nothing: no acceptance row is created and
no cache entry is written (the state is returned untouched). -/
theorem empty_batch_redirects_unchanged (settings : Settings)
    (safe : String → Bool) (now : Int) (req : Request) (st : PostState)
    (h : req.termsIds = []) :
    AcceptTermsView.post settings safe now req st =
      .redirect (get_return_to safe req.returnTo) st := by
  unfold AcceptTermsView.post
  rw [if_pos (List.isEmpty_iff.mpr h)]

/-- C9 (witness): an empty batch on an empty state redirects to the
validated return URL with the state untouched. -/
theorem empty_batch_redirects_unchanged_witness :
    AcceptTermsView.post ⟨none⟩ (fun _ => true) 0
      ⟨some "/next", [], some "u", none, some "1.2.3.4"⟩ ⟨⟨[], []⟩, []⟩ =
    .redirect (get_return_to (fun _ => true) (some "/next")) ⟨⟨[], []⟩, []⟩ :=
  empty_batch_redirects_unchanged ⟨none⟩ (fun _ => true) 0
    ⟨some "/next", [], some "u", none, some "1.2.3.4"⟩ ⟨⟨[], []⟩, []⟩ rfl

/-- C2 (counterexample): a batch consisting entirely of duplicate ids writes
nothing to the cache.  User `u` has already accepted terms id 1; the active
catalog also holds terms id 2; the cache starts empty.  After
`AcceptTermsView.post` on the batch `[1]`, the state is unchanged — in
particular the cache still has no entry for the user — while the freshly
recomputed not-agreed set is `[terms 2]`, so the cache entry does not hold
the recomputed set. -/
theorem all_duplicates_cache_not_written_cex :
    AcceptTermsView.post ⟨none⟩ (fun _ => true) 20
      ⟨none, [1], some "u", none, some "1.2.3.4"⟩
      ⟨⟨[⟨1, "privacy", "1", some 5⟩, ⟨2, "site-terms", "2", some 10⟩],
        [⟨"u", 1, "1.2.3.4"⟩]⟩, []⟩ =
    .redirect "/"
      ⟨⟨[⟨1, "privacy", "1", some 5⟩, ⟨2, "site-terms", "2", some 10⟩],
        [⟨"u", 1, "1.2.3.4"⟩]⟩, []⟩ ∧
    cacheGet ([] : CacheT) "tandc.not_agreed_terms_u" = none ∧
    notAgreedList
      ⟨[⟨1, "privacy", "1", some 5⟩, ⟨2, "site-terms", "2", some 10⟩],
        [⟨"u", 1, "1.2.3.4"⟩]⟩ 20 "u" =
      [⟨2, "site-terms", "2", some 10⟩] := by
  decide

/-- C2 (amended): after `AcceptTermsView.post` completes a batch for an
authenticated user, if at least one submitted id resolved and was not yet
accepted at the start of the batch — i.e. the batch created at least one new
acceptance row — then the cache entry keyed by the user's identity holds the
freshly recomputed not-agreed set (active terms minus the user's accepted
terms at the final state); a batch consisting entirely of duplicates writes
nothing to the cache. -/
theorem fresh_acceptance_updates_cache (settings : Settings)
    (safe : String → Bool) (now : Int) (req : Request) (st : PostState)
    (u url : String) (st' : PostState)
    (hauth : req.authUser = some u)
    (hres : AcceptTermsView.post settings safe now req st = .redirect url st')
    (hfresh : ∃ tid ∈ req.termsIds,
      st.db.terms.any (fun t => t.id == tid) = true ∧
      acceptedB st.db u tid = false) :
    cacheGet st'.cache ("tandc.not_agreed_terms_" ++ u) =
      some (notAgreedList st'.db now u) := by
  rcases post_redirect_cases settings safe now req st url st' hres with
    ⟨heq, hcase⟩ | ⟨u2, ip, hu2, hipx, hloop⟩
  · rcases hcase with hempty | hnone
    · obtain ⟨tid, htid, -⟩ := hfresh
      rw [hempty] at htid
      simp at htid
    · rw [hauth] at hnone
      simp at hnone
  · have huu : u = u2 := by
      rcases hu2 with h | ⟨h, -⟩
      · rw [hauth] at h
        simpa using h
      · rw [hauth] at h
        simp at h
    subst huu
    have hok : (postLoop now u ip st req.termsIds).2 = none := by rw [hloop]
    have hc := postLoop_fresh_cache now u ip req.termsIds st hok hfresh
    rw [hloop] at hc
    exact hc

/-- C2 (witness for the amended claim): a batch `[1]` that freshly accepts
terms id 1 leaves the cache holding the recomputed (empty) not-agreed
set. -/
theorem fresh_acceptance_updates_cache_witness :
    cacheGet (wAfter "1.2.3.4").cache ("tandc.not_agreed_terms_" ++ "u") =
      some (notAgreedList (wAfter "1.2.3.4").db 20 "u") :=
  fresh_acceptance_updates_cache ⟨none⟩ (fun _ => true) 20
    ⟨none, [1], some "u", none, some "1.2.3.4"⟩ wStart "u" "/"
    (wAfter "1.2.3.4") rfl (by decide) (by decide)

/-- C4: with ip storage enabled and a comma-containing ip header value `s`,
every acceptance row created during `AcceptTermsView.post` records as
`ip_address` the first comma-separated entry of `s`, stripped of surrounding
whitespace. -/
theorem recorded_ip_is_first_entry (settings : Settings)
    (safe : String → Bool) (now : Int) (req : Request) (st : PostState)
    (s url : String) (st' : PostState)
    (hstore : settings.storeIpAddress.getD true = true)
    (hhdr : req.ipHeader = some s)
    (hcomma : s.data.contains ',' = true)
    (hres : AcceptTermsView.post settings safe now req st = .redirect url st') :
    ∀ r ∈ st'.db.userterms, r ∉ st.db.userterms →
      r.ip_address = pyStrip (splitFirstComma s) := by
  have hip : ipExtract settings req.ipHeader =
      .ok (pyStrip (splitFirstComma s)) := by
    rw [hhdr]
    have hmem : ',' ∈ s.data := by simpa using hcomma
    simp [ipExtract, hstore, hmem]
  rcases post_redirect_cases settings safe now req st url st' hres with
    ⟨heq, -⟩ | ⟨u, ip, -, hipx, hloop⟩
  · subst heq
    intro r hr hnr
    exact absurd hr hnr
  · rw [hip] at hipx
    have hipeq : ip = pyStrip (splitFirstComma s) := by
      simpa using hipx.symm
    obtain ⟨l, hl, hall⟩ := postLoop_extends now u ip req.termsIds st
    rw [hloop] at hl
    simp at hl
    intro r hr hnr
    rw [hl] at hr
    rcases List.mem_append.mp hr with h1 | h2
    · exact absurd h1 hnr
    · exact ((hall r h2).2).trans hipeq

/-- C4 (witness): header value `"203.0.113.5, 10.0.0.1"` yields recorded
ip address `"203.0.113.5"` on the created acceptance row. -/
theorem recorded_ip_is_first_entry_witness :
    (⟨"u", 1, "203.0.113.5"⟩ : AcceptanceRecord).ip_address =
      pyStrip (splitFirstComma "203.0.113.5, 10.0.0.1") :=
  recorded_ip_is_first_entry ⟨none⟩ (fun _ => true) 20
    ⟨none, [1], some "u", none, some "203.0.113.5, 10.0.0.1"⟩ wStart
    "203.0.113.5, 10.0.0.1" "/" (wAfter "203.0.113.5")
    (by decide) rfl (by decide) (by decide)
    ⟨"u", 1, "203.0.113.5"⟩ (by decide) (by decide)

/-- C5: the not-agreed queryset that `AcceptTermsView.post` computes and
writes to the cache is exactly the active terms versions minus those the
user has accepted, ordered by slug ascending: membership in the list is
equivalent to being an active catalog row with no acceptance row of the
user, the list is sorted by slug, and every cache write performed by a loop
iteration stores precisely this list for the post-save database state. -/
theorem cached_not_agreed_characterization (now : Int) (u : String) :
    (∀ (db : DB) (t : TermsVersion),
      t ∈ notAgreedList db now u ↔
        t ∈ db.terms ∧ isActiveB db now t = true ∧
        db.userterms.any (fun r => r.user == u && r.terms == t.id) = false) ∧
    (∀ db : DB, List.Sorted (fun a b : TermsVersion => a.slug ≤ b.slug)
      (notAgreedList db now u)) ∧
    (∀ (ip : String) (st st' : PostState) (tid : Nat),
      acceptOne now u ip st tid = .ok st' →
      st'.cache = st.cache ∨
      st'.cache = cacheSet st.cache ("tandc.not_agreed_terms_" ++ u)
        (notAgreedList st'.db now u)) := by
  refine ⟨?_, ?_, ?_⟩
  · intro db t
    unfold notAgreedList get_active_terms_list
    rw [(List.perm_insertionSort _ _).mem_iff]
    rw [List.mem_filter, List.mem_filter]
    constructor
    · rintro ⟨⟨h1, h2⟩, h3⟩
      exact ⟨h1, h2, by simpa using h3⟩
    · rintro ⟨h1, h2, h3⟩
      exact ⟨⟨h1, h2⟩, by simpa using h3⟩
  · intro db
    unfold notAgreedList
    haveI h1 : IsTotal TermsVersion (fun a b => a.slug ≤ b.slug) :=
      ⟨fun a b => le_total a.slug b.slug⟩
    haveI h2 : IsTrans TermsVersion (fun a b => a.slug ≤ b.slug) :=
      ⟨fun a b c hab hbc => le_trans hab hbc⟩
    exact List.sorted_insertionSort _ _
  · intro ip st st' tid hone
    rcases acceptOne_ok_cases now u ip st st' tid hone with
      ⟨heq, -⟩ | ⟨t, -, -, -, -, hcache⟩
    · rw [heq]
      exact Or.inl rfl
    · exact Or.inr hcache

/-- C5 (witness): a concrete fresh acceptance writes exactly the recomputed
not-agreed list to the cache. -/
theorem cached_not_agreed_characterization_witness :
    (wAfter "ip").cache = wStart.cache ∨
    (wAfter "ip").cache =
      cacheSet wStart.cache ("tandc.not_agreed_terms_" ++ "u")
        (notAgreedList (wAfter "ip").db 20 "u") :=
  (cached_not_agreed_characterization 20 "u").2.2 "ip" wStart (wAfter "ip") 1
    (by decide)

/-- C6: with both slug and version truthy, `get_terms` performs an exact
`(slug, version_number)` lookup with no activity restriction: when no
catalog row matches, the lookup fails with `DoesNotExist`; when a row is
returned, it is a catalog row matching the pair whose `date_active` is
maximal among the matching rows. -/
theorem get_terms_slug_version_exact
    (getActive : String → Except PyError TermsVersion)
    (notAgreedOfUser : List TermsVersion) (db : DB) (slug ver : String)
    (hs : slug ≠ "") (hv : ver ≠ "") :
    (db.terms.filter
        (fun t => t.slug == slug && t.version_number == ver) = [] →
      get_terms getActive notAgreedOfUser db (some slug) (some ver) =
        .error .doesNotExist) ∧
    (∀ t, get_terms getActive notAgreedOfUser db (some slug) (some ver) =
        .ok [t] →
      t ∈ db.terms ∧ t.slug = slug ∧ t.version_number = ver ∧
      ∀ r ∈ db.terms, r.slug = slug → r.version_number = ver →
        dateLE r.date_active t.date_active = true) := by
  have htr : (truthy (some slug) && truthy (some ver)) = true := by
    simp [truthy, hs, hv]
  constructor
  · intro hemp
    unfold get_terms
    rw [if_pos htr]
    simp only [Option.getD_some]
    rw [hemp]
    rfl
  · intro t hres
    unfold get_terms at hres
    rw [if_pos htr] at hres
    simp only [Option.getD_some] at hres
    cases hlat : latestByDateActive
        (db.terms.filter
          (fun t0 => t0.slug == slug && t0.version_number == ver)) with
    | none => rw [hlat] at hres; simp at hres
    | some t0 =>
      rw [hlat] at hres
      simp at hres
      subst hres
      have hmem := latest_mem _ _ hlat
      have hmax := latest_max _ _ hlat
      rw [List.mem_filter] at hmem
      obtain ⟨hmemdb, hpred⟩ := hmem
      have hps : t0.slug = slug ∧ t0.version_number = ver := by
        simpa using hpred
      refine ⟨hmemdb, hps.1, hps.2, ?_⟩
      intro r hr hrs hrv
      exact hmax r (List.mem_filter.mpr ⟨hr, by simp [hrs, hrv]⟩)

/-- C6 (witness): two rows share slug `s` and version `1` (a data-integrity
anomaly); the lookup returns the row with the later `date_active`, so the
other row's activation date is bounded by the returned one's. -/
theorem get_terms_slug_version_exact_witness :
    dateLE (⟨1, "s", "1", some 5⟩ : TermsVersion).date_active
      (⟨2, "s", "1", some 9⟩ : TermsVersion).date_active = true :=
  ((get_terms_slug_version_exact (fun _ => .error .doesNotExist) []
      ⟨[⟨1, "s", "1", some 5⟩, ⟨2, "s", "1", some 9⟩], []⟩ "s" "1"
      (by decide) (by decide)).2
    ⟨2, "s", "1", some 9⟩ (by decide)).2.2.2
    ⟨1, "s", "1", some 5⟩ (by decide) rfl rfl

/-- C7: when `send_mail` raises `SMTPException`, `EmailTermsView.form_valid`
only adds a user-visible error message and completes normally with the
validated return URL as its success URL; the acceptance rows and the
not-agreed cache are untouched. -/
theorem smtp_failure_leaves_acceptance_state (safe : String → Bool)
    (returnTo : Option String) (st : EmailState) :
    (EmailTermsView.form_valid safe .smtpException returnTo st).1.db =
      st.db ∧
    (EmailTermsView.form_valid safe .smtpException returnTo st).1.cache =
      st.cache ∧
    (EmailTermsView.form_valid safe .smtpException returnTo st).1.messages =
      st.messages ++
        [(MsgLevel.error, "An Error Occurred Sending Your Message.")] ∧
    (EmailTermsView.form_valid safe .smtpException returnTo st).2 =
      get_return_to safe returnTo :=
  ⟨rfl, rfl, rfl, rfl⟩

/-- C8: with ip storage enabled (setting unset or True) and the configured
ip header absent from the request metadata, the Python membership test
`"," in None` raises `TypeError`, so `AcceptTermsView.post` raises before
any acceptance row is created: the state comes back unchanged. -/
theorem missing_ip_header_raises_typeerror (settings : Settings)
    (safe : String → Bool) (now : Int) (req : Request) (st : PostState)
    (u : String)
    (hstore : settings.storeIpAddress.getD true = true)
    (hhdr : req.ipHeader = none)
    (hne : req.termsIds ≠ [])
    (hauth : req.authUser = some u) :
    AcceptTermsView.post settings safe now req st = .raised .typeError st := by
  have hip : ipExtract settings req.ipHeader = .error .typeError := by
    rw [hhdr]
    unfold ipExtract
    rw [if_pos hstore]
  have hempF : req.termsIds.isEmpty = false :=
    Bool.eq_false_iff.mpr (fun h => hne (List.isEmpty_iff.mp h))
  unfold AcceptTermsView.post AcceptTermsView.postBody
  simp [hempF, hauth, hip]

/-- C8 (witness): an authenticated POST of batch `[1]` with
`TERMS_STORE_IP_ADDRESS` unset and no `REMOTE_ADDR` header raises
`TypeError` with the state unchanged. -/
theorem missing_ip_header_raises_typeerror_witness :
    AcceptTermsView.post ⟨none⟩ (fun _ => true) 20
      ⟨none, [1], some "u", none, none⟩ wStart =
      .raised .typeError wStart :=
  missing_ip_header_raises_typeerror ⟨none⟩ (fun _ => true) 20
    ⟨none, [1], some "u", none, none⟩ wStart "u"
    rfl rfl (by decide) rfl

/-- C10: `get_return_to` returns the IRI-encoded `returnTo` value exactly
when the value (defaulting to `"/"` when absent) passes the safety check,
and `"/"` otherwise; in particular, when `returnTo` is absent it returns
`"/"` whether or not the safety check accepts the default. -/
theorem return_to_safety_dispatch (safe : String → Bool) (d : Option String) :
    (get_return_to safe d =
      if safe (d.getD "/") then iri_to_uri (d.getD "/") else "/") ∧
    (d = none → get_return_to safe d = "/") := by
  constructor
  · rfl
  · intro hd
    subst hd
    unfold get_return_to
    simp only [Option.getD_none]
    cases hsafe : safe "/" with
    | false => rfl
    | true => decide

/-- C10 (witness): with an absent `returnTo`, `get_return_to` yields `"/"`
under a safety check that accepts everything. -/
theorem return_to_safety_dispatch_witness :
    get_return_to (fun _ => true) none = "/" :=
  (return_to_safety_dispatch (fun _ => true) none).2 rfl
